import Mathlib

/-!
Verification of the trajectory-integration core of `u296/differential`
(src/main.rs): forward-Euler stepping with a termination policy and a
degeneracy check, batch orchestration over initial conditions, and the
viewport/bounds computation in `main`.

Numeric model: `f64` values are embedded as rationals extended with the
IEEE special values NaN, +∞ and -∞; the propagation rules for the special
values follow IEEE 754 (NaN absorbs, ∞ + -∞ = NaN, ∞ · 0 = NaN, every
comparison with NaN is false).  Two arithmetic layers are used:

* `F.add`/`F.mul` compute on finite values exactly.  This layer is adequate
  for the properties whose concrete values are exactly representable and
  whose truth does not depend on rounding (the loop-guard invariants, the
  small integer scenarios, the batch indexing, the bounds plumbing).
* `f64_add`/`f64_mul` compute the correctly rounded IEEE double result:
  the exact rational result is rounded to 53 significant bits, round to
  nearest with ties to even, with the subnormal exponent clamp at 2^-1074
  and overflow to ±∞ at 2^1024 (`roundQ`).  This layer is needed where
  rounding changes behaviour: repeated `x += step` can stall
  (`fl(x + s) = x` once `s` drops below half an ulp of `x`), which breaks
  the strict-increase and termination properties.

The stepping `while` loop of `create_dataset` is embedded with an explicit
fuel parameter: `none` means the loop did not finish within the given
fuel, `some points` means the loop exited normally with that output
(`create_dataset` over the exact layer, `create_dataset_fl` over the
rounded layer).
-/

/-- Model of an `f64` value: an exact rational, or one of the IEEE special
values (positive infinity, negative infinity, NaN). -/
inductive F where
  | fin : ℚ → F
  | inf : F
  | ninf : F
  | nan : F
deriving DecidableEq, Repr

namespace F

/-- IEEE addition on the model (finite addition is exact). -/
def add : F → F → F
  | nan, _ => nan
  | _, nan => nan
  | inf, ninf => nan
  | ninf, inf => nan
  | inf, _ => inf
  | _, inf => inf
  | ninf, _ => ninf
  | _, ninf => ninf
  | fin a, fin b => fin (a + b)

/-- IEEE negation on the model. -/
def neg : F → F
  | nan => nan
  | inf => ninf
  | ninf => inf
  | fin a => fin (-a)

/-- IEEE subtraction on the model: `a - b = a + (-b)`. -/
def sub (a b : F) : F := add a (neg b)

/-- IEEE multiplication on the model (finite multiplication is exact). -/
def mul : F → F → F
  | nan, _ => nan
  | _, nan => nan
  | inf, inf => inf
  | inf, ninf => ninf
  | ninf, inf => ninf
  | ninf, ninf => inf
  | inf, fin b => if b = 0 then nan else if 0 < b then inf else ninf
  | fin a, inf => if a = 0 then nan else if 0 < a then inf else ninf
  | ninf, fin b => if b = 0 then nan else if 0 < b then ninf else inf
  | fin a, ninf => if a = 0 then nan else if 0 < a then ninf else inf
  | fin a, fin b => fin (a * b)

/-- Model of `f64::abs`. -/
def abs : F → F
  | nan => nan
  | inf => inf
  | ninf => inf
  | fin a => fin |a|

/-- Model of the `f64` strict comparison `a > b`: any comparison involving
NaN is false. -/
def gt : F → F → Bool
  | nan, _ => false
  | _, nan => false
  | inf, inf => false
  | inf, _ => true
  | ninf, _ => false
  | fin _, inf => false
  | fin _, ninf => true
  | fin a, fin b => decide (b < a)

/-- Model of `f64::max` (from `reduce(f64::max)` in `main`): if one operand
is NaN the other is returned. -/
def maxF : F → F → F
  | nan, b => b
  | a, nan => a
  | inf, _ => inf
  | _, inf => inf
  | ninf, b => b
  | a, ninf => a
  | fin a, fin b => fin (max a b)

/-- Model of `f64::min` (from `reduce(f64::min)` in `main`). -/
def minF : F → F → F
  | nan, b => b
  | a, nan => a
  | ninf, _ => ninf
  | _, ninf => ninf
  | inf, b => b
  | a, inf => a
  | fin a, fin b => fin (min a b)

end F

/-- `fn is_degenerate(x: f64) -> bool`: true exactly on NaN and the two
infinities (`FpCategory::Nan` and `FpCategory::Infinite`). -/
def is_degenerate : F → Bool
  | F.nan => true
  | F.inf => true
  | F.ninf => true
  | F.fin _ => false

/-- `struct Point { x: f64, y: f64 }`. -/
structure Point where
  x : F
  y : F
deriving DecidableEq, Repr

/-- `struct EndCondition { max_x: Option<f64>, max_abs_y: Option<f64> }`. -/
structure EndCondition where
  max_x : Option F
  max_abs_y : Option F
deriving DecidableEq, Repr

/-- `EndCondition::has_reached`: the `max_x` check (`current.x > max_x`,
`map_or(false, ..)`) is evaluated first; otherwise the `max_abs_y` check
(`current.y.abs() > max_y`); otherwise false. -/
def EndCondition.has_reached (c : EndCondition) (current : Point) : Bool :=
  if c.max_x.elim false (fun m => F.gt current.x m) then
    true
  else if c.max_abs_y.elim false (fun m => F.gt (F.abs current.y) m) then
    true
  else
    false

/-- One Euler step of the loop body of `create_dataset`:
`current.y += derivative_y(current.x, current.y) * step_size;
 current.x += step_size;` (the `y` update reads the old `x` and `y`). -/
def euler_step (current : Point) (step_size : F)
    (deriv : F → F → F) : Point :=
  { x := F.add current.x step_size,
    y := F.add current.y (F.mul (deriv current.x current.y) step_size) }

/-- `fn create_dataset(start, step_size, end_condition, derivative_y)`,
embedded with fuel.  The Rust `while` loop runs while
`!end_condition.has_reached(&current) && !is_degenerate(current.x) &&
!is_degenerate(current.y)`, pushing `(current.x, current.y)` and then
performing the Euler update.  `none` means the fuel ran out before the
loop exited; `some points` is the returned vector. -/
def create_dataset : Nat → Point → F → EndCondition → (F → F → F) →
    Option (List Point)
  | 0, _, _, _, _ => none
  | Nat.succ fuel, current, step_size, end_condition, deriv =>
    if end_condition.has_reached current || is_degenerate current.x ||
        is_degenerate current.y then
      some []
    else
      (create_dataset fuel (euler_step current step_size deriv) step_size
        end_condition deriv).map (fun rest => current :: rest)

/-- The batch construction in `main`: for each `i` in `0..num_datasets`,
start from `(start_x, 0.0 + i as f64 * y_spread)` and integrate with the
shared step, end condition and derivative (`into_par_iter().map(..)
.collect()` keeps the index order). -/
def batch_datasets (fuel num_datasets : Nat) (start_x y_spread step : F)
    (cond : EndCondition) (deriv : F → F → F) : List (Option (List Point)) :=
  (List.range num_datasets).map (fun i : Nat =>
    create_dataset fuel
      { x := start_x, y := F.add (F.fin 0) (F.mul (F.fin ((i : ℚ))) y_spread) }
      step cond deriv)

/-- The concrete batch of `main`: 10 datasets, `start_x = 0.0`,
`y_spread = 10.0`, `delta = 0.001`, bounds `max_x = Some(150.0)`,
`max_abs_y = Some(150.0)`; the derivative is kept as a parameter. -/
def main_datasets (fuel : Nat) (deriv : F → F → F) :
    List (Option (List Point)) :=
  batch_datasets fuel 10 (F.fin 0) (F.fin 10) (F.fin (1 / 1000))
    { max_x := some (F.fin 150), max_abs_y := some (F.fin 150) } deriv

/-- Model of `Iterator::reduce`: `none` on the empty list, otherwise fold
the operation from the first element. -/
def reduce (f : F → F → F) : List F → Option F
  | [] => none
  | a :: rest => some (rest.foldl f a)

/-- `fn decide_bounds(x_range, y_range)`: pad each bound outward by 1.0. -/
def decide_bounds (x_range y_range : F × F) : F × F × F × F :=
  (F.sub x_range.1 (F.fin 1), F.add x_range.2 (F.fin 1),
   F.sub y_range.1 (F.fin 1), F.add y_range.2 (F.fin 1))

/-- The bounds-and-render stage of `main` after the datasets are collected:
`max_x`, `min_y`, `max_y` are `reduce`d over the flattened point list and
`unwrap`ped (a panic — modelled as `Except.error` — when the aggregate is
empty), then `decide_bounds((start_x, max_x), (min_y, max_y))` produces the
viewport handed to the renderer.  Rendering itself is external output; the
model returns the viewport on success. -/
def run_main (start_x : F) (datasets : List (List Point)) :
    Except String (F × F × F × F) :=
  match reduce F.maxF ((datasets.flatten).map Point.x) with
  | none => Except.error "called Option::unwrap on a None value"
  | some max_x =>
    match reduce F.minF ((datasets.flatten).map Point.y) with
    | none => Except.error "called Option::unwrap on a None value"
    | some min_y =>
      match reduce F.maxF ((datasets.flatten).map Point.y) with
      | none => Except.error "called Option::unwrap on a None value"
      | some max_y =>
        Except.ok (decide_bounds (start_x, max_x) (min_y, max_y))

/-! ### Correctly rounded double arithmetic -/

/-- `natLog2Fuel fuel n` computes `⌊log₂ n⌋` by halving, with enough fuel
(`fuel ≥ n` suffices); structural recursion keeps it kernel-reducible. -/
def natLog2Fuel : Nat → Nat → Nat
  | 0, _ => 0
  | fuel + 1, n => if n ≤ 1 then 0 else natLog2Fuel fuel (n / 2) + 1

/-- `⌊log₂ n⌋` for `n ≥ 1` (0 for `n = 0`). -/
def natLog2 (n : Nat) : Nat := natLog2Fuel n n

/-- `⌊log₂ m⌋` of a positive rational `m = a / b`: it is `⌊log₂ a⌋ -
⌊log₂ b⌋` when `m ≥ 2^(⌊log₂ a⌋ - ⌊log₂ b⌋)` and one less otherwise. -/
def qlog2 (m : ℚ) : ℤ :=
  let a := m.num.toNat
  let b := m.den
  if b * 2 ^ natLog2 a ≤ a * 2 ^ natLog2 b then
    (natLog2 a : ℤ) - (natLog2 b : ℤ)
  else
    (natLog2 a : ℤ) - (natLog2 b : ℤ) - 1

/-- Exact `m / 2^e` (`e : ℤ`), computed on numerator and denominator. -/
def divPow2 (m : ℚ) (e : ℤ) : ℚ :=
  if 0 ≤ e then mkRat m.num (m.den * 2 ^ e.toNat)
  else mkRat (m.num * ((2 ^ (-e).toNat : ℕ) : ℤ)) m.den

/-- Exact `k * 2^e` (`k e : ℤ`). -/
def scalePow2 (k e : ℤ) : ℚ :=
  if 0 ≤ e then mkRat (k * ((2 ^ e.toNat : ℕ) : ℤ)) 1
  else mkRat k (2 ^ (-e).toNat)

/-- Round a nonnegative rational to the nearest integer, ties to even:
`n = ⌊t⌋` is kept when the fractional part is below 1/2 (`2·frac·den <
den`), bumped when above, and on a tie the even of `n`, `n + 1` wins. -/
def roundHalfEven (t : ℚ) : ℤ :=
  let n := t.num / (t.den : ℤ)
  let twice := 2 * t.num - 2 * n * (t.den : ℤ)
  if twice < (t.den : ℤ) then n
  else if (t.den : ℤ) < twice then n + 1
  else if n % 2 = 0 then n else n + 1

/-- Round a positive rational to the IEEE double grid: scale into
`[2^52, 2^53)` (clamping the exponent at the subnormal limit `2^-1074`),
round the mantissa to nearest with ties to even, and overflow to +∞ when
the rounded magnitude reaches `2^1024`. -/
def roundPos (m : ℚ) : F :=
  let e2 : ℤ := max (qlog2 m - 52) (-1074)
  let k : ℤ := roundHalfEven (divPow2 m e2)
  if 0 ≤ e2 ∧ ((2 ^ 1024 : ℕ) : ℤ) ≤ k * ((2 ^ e2.toNat : ℕ) : ℤ) then F.inf
  else F.fin (scalePow2 k e2)

/-- Round an exact rational result to the nearest `f64` (round to nearest,
ties to even; negative values by sign symmetry as in IEEE 754). -/
def roundQ (q : ℚ) : F :=
  if q = 0 then F.fin 0
  else if 0 < q then roundPos q
  else
    match roundPos (-q) with
    | F.inf => F.ninf
    | F.fin a => F.fin (-a)
    | f => f

/-- Exact rational sum computed by cross-multiplication (kernel-reducible;
provably equal to `+` on `ℚ`, see `qadd_eq_add`). -/
def qadd (a b : ℚ) : ℚ :=
  mkRat (a.num * (b.den : ℤ) + b.num * (a.den : ℤ)) (a.den * b.den)

/-- Exact rational product (kernel-reducible; provably equal to `*` on
`ℚ`, see `qmul_eq_mul`). -/
def qmul (a b : ℚ) : ℚ := mkRat (a.num * b.num) (a.den * b.den)

/-- IEEE double addition: the exact sum of two finite values is rounded to
the nearest double; special values propagate as in `F.add`. -/
def f64_add : F → F → F
  | F.nan, _ => F.nan
  | _, F.nan => F.nan
  | F.inf, F.ninf => F.nan
  | F.ninf, F.inf => F.nan
  | F.inf, _ => F.inf
  | _, F.inf => F.inf
  | F.ninf, _ => F.ninf
  | _, F.ninf => F.ninf
  | F.fin a, F.fin b => roundQ (qadd a b)

/-- IEEE double multiplication: the exact product of two finite values is
rounded to the nearest double; special values propagate as in `F.mul`. -/
def f64_mul : F → F → F
  | F.nan, _ => F.nan
  | _, F.nan => F.nan
  | F.inf, F.inf => F.inf
  | F.inf, F.ninf => F.ninf
  | F.ninf, F.inf => F.ninf
  | F.ninf, F.ninf => F.inf
  | F.inf, F.fin b => if b = 0 then F.nan else if 0 < b then F.inf else F.ninf
  | F.fin a, F.inf => if a = 0 then F.nan else if 0 < a then F.inf else F.ninf
  | F.ninf, F.fin b => if b = 0 then F.nan else if 0 < b then F.ninf else F.inf
  | F.fin a, F.ninf => if a = 0 then F.nan else if 0 < a then F.ninf else F.inf
  | F.fin a, F.fin b => roundQ (qmul a b)

/-- The loop body of `create_dataset` over rounded double arithmetic:
`current.y += derivative_y(current.x, current.y) * step_size;
 current.x += step_size;` with each `f64` operation correctly rounded. -/
def euler_step_fl (current : Point) (step_size : F)
    (deriv : F → F → F) : Point :=
  { x := f64_add current.x step_size,
    y := f64_add current.y (f64_mul (deriv current.x current.y) step_size) }

/-- `fn create_dataset` embedded over correctly rounded double arithmetic
(same guard and structure as `create_dataset`, with the Euler update
performed by rounded `f64` operations). -/
def create_dataset_fl : Nat → Point → F → EndCondition → (F → F → F) →
    Option (List Point)
  | 0, _, _, _, _ => none
  | Nat.succ fuel, current, step_size, end_condition, deriv =>
    if end_condition.has_reached current || is_degenerate current.x ||
        is_degenerate current.y then
      some []
    else
      (create_dataset_fl fuel (euler_step_fl current step_size deriv)
        step_size end_condition deriv).map (fun rest => current :: rest)

/-! ### Structural lemmas about the stepping loop -/

/-- The kernel-reducible sum agrees with rational addition. -/
theorem qadd_eq_add (a b : ℚ) : qadd a b = a + b :=
  (Rat.add_def' a b).symm

/-- The kernel-reducible product agrees with rational multiplication. -/
theorem qmul_eq_mul (a b : ℚ) : qmul a b = a * b := by
  rw [qmul, Rat.mul_def, Rat.normalize_eq_mkRat]

theorem create_dataset_succ (fuel : Nat) (current : Point) (step_size : F)
    (end_condition : EndCondition) (deriv : F → F → F) :
    create_dataset (fuel + 1) current step_size end_condition deriv =
      if end_condition.has_reached current || is_degenerate current.x ||
          is_degenerate current.y then
        some []
      else
        (create_dataset fuel (euler_step current step_size deriv) step_size
          end_condition deriv).map (fun rest => current :: rest) := rfl

/-- More fuel never changes a loop run that already finished. -/
theorem create_dataset_mono {step_size : F} {end_condition : EndCondition}
    {deriv : F → F → F} :
    ∀ {n m : Nat} {current : Point} {r : List Point}, n ≤ m →
      create_dataset n current step_size end_condition deriv = some r →
      create_dataset m current step_size end_condition deriv = some r := by
  intro n
  induction n with
  | zero => intro m current r _ h; simp [create_dataset] at h
  | succ k ih =>
    intro m current r hnm h
    obtain ⟨m', rfl⟩ : ∃ m', m = m' + 1 := ⟨m - 1, by omega⟩
    rw [create_dataset_succ] at h ⊢
    by_cases hg : (end_condition.has_reached current ||
        is_degenerate current.x || is_degenerate current.y) = true
    · simpa [hg] using h
    · rw [if_neg hg] at h ⊢
      rw [Option.map_eq_some'] at h
      obtain ⟨rest, hrest, hr⟩ := h
      rw [Option.map_eq_some']
      exact ⟨rest, ih (by omega) hrest, hr⟩

/-- The first emitted point of a successful run is the starting point. -/
theorem create_dataset_head {fuel : Nat} {start : Point} {step_size : F}
    {end_condition : EndCondition} {deriv : F → F → F} {p : Point}
    {rest : List Point}
    (h : create_dataset fuel start step_size end_condition deriv =
      some (p :: rest)) : p = start := by
  cases fuel with
  | zero => simp [create_dataset] at h
  | succ k =>
    rw [create_dataset_succ] at h
    by_cases hg : (end_condition.has_reached start ||
        is_degenerate start.x || is_degenerate start.y) = true
    · simp [hg] at h
    · rw [if_neg hg] at h
      rw [Option.map_eq_some'] at h
      obtain ⟨rest', _, hr⟩ := h
      exact ((List.cons.injEq _ _ _ _).mp hr).1.symm

theorem guard_false_iff (c : EndCondition) (p : Point) :
    (c.has_reached p || is_degenerate p.x || is_degenerate p.y) = false ↔
      c.has_reached p = false ∧ is_degenerate p.x = false ∧
        is_degenerate p.y = false := by
  simp [and_assoc]

theorem eq_fin_of_not_degenerate {f : F} (h : is_degenerate f = false) :
    ∃ q, f = F.fin q := by
  cases f with
  | fin a => exact ⟨a, rfl⟩
  | inf => simp [is_degenerate] at h
  | ninf => simp [is_degenerate] at h
  | nan => simp [is_degenerate] at h

/-! ### C1 -/

/-- C1: with derivative 0, start (0,5), step 1, `max_x = 3` and no y bound,
`create_dataset` returns exactly the four points (0,5), (1,5), (2,5), (3,5)
for any fuel that lets the loop finish: points are appended for
x = 0, 1, 2, 3 and the candidate at x = 4 triggers the stop without being
recorded. -/
theorem C1_scenario_flat (fuel : Nat) (h : 5 ≤ fuel) :
    create_dataset fuel { x := F.fin 0, y := F.fin 5 } (F.fin 1)
      { max_x := some (F.fin 3), max_abs_y := none } (fun _ _ => F.fin 0) =
      some [{ x := F.fin 0, y := F.fin 5 }, { x := F.fin 1, y := F.fin 5 },
        { x := F.fin 2, y := F.fin 5 }, { x := F.fin 3, y := F.fin 5 }] :=
  create_dataset_mono h (by with_unfolding_all decide)

theorem C1_scenario_flat_witness :
    5 ≤ 5 ∧
      create_dataset 5 { x := F.fin 0, y := F.fin 5 } (F.fin 1)
        { max_x := some (F.fin 3), max_abs_y := none } (fun _ _ => F.fin 0) =
        some [{ x := F.fin 0, y := F.fin 5 }, { x := F.fin 1, y := F.fin 5 },
          { x := F.fin 2, y := F.fin 5 }, { x := F.fin 3, y := F.fin 5 }] :=
  ⟨Nat.le_refl 5, C1_scenario_flat 5 (Nat.le_refl 5)⟩

/-! ### C2 -/

/-- C2: every point appended to the trajectory returned by `create_dataset`
satisfies, at the moment of emission, `has_reached = false` and has neither
coordinate NaN or infinite (`is_degenerate = false` on both). -/
theorem C2_emitted_points_valid (fuel : Nat) (start : Point) (step_size : F)
    (end_condition : EndCondition) (deriv : F → F → F) (r : List Point)
    (h : create_dataset fuel start step_size end_condition deriv = some r) :
    ∀ p ∈ r, end_condition.has_reached p = false ∧
      is_degenerate p.x = false ∧ is_degenerate p.y = false := by
  induction fuel generalizing start r with
  | zero => simp [create_dataset] at h
  | succ k ih =>
    rw [create_dataset_succ] at h
    by_cases hg : (end_condition.has_reached start ||
        is_degenerate start.x || is_degenerate start.y) = true
    · simp only [hg, if_pos, Option.some.injEq] at h
      subst h
      intro p hp
      exact absurd hp (List.not_mem_nil p)
    · rw [if_neg hg] at h
      rw [Option.map_eq_some'] at h
      obtain ⟨rest, hrest, hr⟩ := h
      subst hr
      intro p hp
      rcases List.mem_cons.mp hp with hps | hpr
      · subst hps
        exact (guard_false_iff end_condition p).mp
          (Bool.not_eq_true _ ▸ hg)
      · exact ih _ _ hrest p hpr

set_option maxRecDepth 10000 in
theorem C2_emitted_points_valid_witness :
    EndCondition.has_reached { max_x := some (F.fin 3), max_abs_y := none }
        { x := F.fin 1, y := F.fin 5 } = false ∧
      is_degenerate (Point.mk (F.fin 1) (F.fin 5)).x = false ∧
      is_degenerate (Point.mk (F.fin 1) (F.fin 5)).y = false :=
  C2_emitted_points_valid 5 { x := F.fin 0, y := F.fin 5 } (F.fin 1)
    { max_x := some (F.fin 3), max_abs_y := none } (fun _ _ => F.fin 0)
    [{ x := F.fin 0, y := F.fin 5 }, { x := F.fin 1, y := F.fin 5 },
      { x := F.fin 2, y := F.fin 5 }, { x := F.fin 3, y := F.fin 5 }]
    (by with_unfolding_all decide) { x := F.fin 1, y := F.fin 5 }
    (by with_unfolding_all decide)

/-! ### C3 -/

theorem create_dataset_fl_succ (fuel : Nat) (current : Point)
    (step_size : F) (end_condition : EndCondition) (deriv : F → F → F) :
    create_dataset_fl (fuel + 1) current step_size end_condition deriv =
      if end_condition.has_reached current || is_degenerate current.x ||
          is_degenerate current.y then
        some []
      else
        (create_dataset_fl fuel (euler_step_fl current step_size deriv)
          step_size end_condition deriv).map (fun rest => current :: rest) :=
  rfl

/-- The first emitted point of a successful rounded run is the start. -/
theorem create_dataset_fl_head {fuel : Nat} {start : Point} {step_size : F}
    {end_condition : EndCondition} {deriv : F → F → F} {p : Point}
    {rest : List Point}
    (h : create_dataset_fl fuel start step_size end_condition deriv =
      some (p :: rest)) : p = start := by
  cases fuel with
  | zero => simp [create_dataset_fl] at h
  | succ k =>
    rw [create_dataset_fl_succ] at h
    by_cases hg : (end_condition.has_reached start ||
        is_degenerate start.x || is_degenerate start.y) = true
    · simp [hg] at h
    · rw [if_neg hg] at h
      rw [Option.map_eq_some'] at h
      obtain ⟨rest', _, hr⟩ := h
      exact ((List.cons.injEq _ _ _ _).mp hr).1.symm

/-- Consecutive emitted points of a rounded run are one rounded `f64`
addition of the step apart in x. -/
theorem create_dataset_fl_x_chain (fuel : Nat) (start : Point)
    (step_size : F) (end_condition : EndCondition) (deriv : F → F → F)
    (r : List Point)
    (h : create_dataset_fl fuel start step_size end_condition deriv =
      some r) :
    List.Chain' (fun p q => q.x = f64_add p.x step_size) r := by
  induction fuel generalizing start r with
  | zero => simp [create_dataset_fl] at h
  | succ k ih =>
    rw [create_dataset_fl_succ] at h
    by_cases hg : (end_condition.has_reached start ||
        is_degenerate start.x || is_degenerate start.y) = true
    · simp only [if_pos hg, Option.some.injEq] at h
      subst h
      exact List.chain'_nil
    · rw [if_neg hg] at h
      rw [Option.map_eq_some'] at h
      obtain ⟨rest, hrest, hr⟩ := h
      subst hr
      refine List.Chain'.cons' (ih _ _ hrest) ?_
      intro q hq
      cases rest with
      | nil => simp at hq
      | cons p' t =>
        simp only [List.head?_cons, Option.mem_def, Option.some.injEq] at hq
        subst hq
        rw [create_dataset_fl_head hrest]
        rfl

set_option maxRecDepth 10000 in
/-- C3 is false as stated of the `f64` program: with start `(2^53, 0)`,
step 1, derivative constantly 60 and `max_abs_y = 100`, the returned
trajectory is `[(2^53, 0), (2^53, 60)]` — the rounded addition `2^53 + 1`
stalls at `2^53` (ties to even), so two consecutive emitted points share
the same x-coordinate: the x-coordinates are neither strictly increasing
nor spaced by exactly the step. -/
theorem C3_strict_increase_counterexample :
    create_dataset_fl 3 { x := F.fin 9007199254740992, y := F.fin 0 }
        (F.fin 1) { max_x := none, max_abs_y := some (F.fin 100) }
        (fun _ _ => F.fin 60) =
      some [{ x := F.fin 9007199254740992, y := F.fin 0 },
        { x := F.fin 9007199254740992, y := F.fin 60 }] ∧
    (Point.mk (F.fin 9007199254740992) (F.fin 0)).x =
      (Point.mk (F.fin 9007199254740992) (F.fin 60)).x := by
  constructor
  · decide
  · rfl

/-- C3 (amended): in every trajectory produced by the stepping loop, each
emitted point's x-coordinate is obtained from its predecessor's by one
correctly rounded `f64` addition of the configured step
(`x_next = fl(x + step)`); when that addition is exact the gap is exactly
the step, but rounding can shrink it — even to zero — so neither strict
increase nor an exact common difference is guaranteed. -/
theorem C3_x_rounded_steps (fuel : Nat) (start : Point) (step_size : F)
    (end_condition : EndCondition) (deriv : F → F → F) (r : List Point)
    (h : create_dataset_fl fuel start step_size end_condition deriv =
      some r) :
    ∀ (i : Nat) (hi : i + 1 < r.length),
      (r.get ⟨i + 1, hi⟩).x =
        f64_add (r.get ⟨i, Nat.lt_of_succ_lt hi⟩).x step_size := by
  intro i hi
  have hchain := create_dataset_fl_x_chain fuel start step_size
    end_condition deriv r h
  rw [List.chain'_iff_get] at hchain
  exact hchain i (by omega)

set_option maxRecDepth 10000 in
theorem C3_x_rounded_steps_witness :
    (([{ x := F.fin 9007199254740992, y := F.fin 0 },
        { x := F.fin 9007199254740992, y := F.fin 60 }] :
        List Point).get ⟨1, by decide⟩).x =
      f64_add (([{ x := F.fin 9007199254740992, y := F.fin 0 },
        { x := F.fin 9007199254740992, y := F.fin 60 }] :
        List Point).get ⟨0, by decide⟩).x (F.fin 1) :=
  C3_x_rounded_steps 3 { x := F.fin 9007199254740992, y := F.fin 0 }
    (F.fin 1) { max_x := none, max_abs_y := some (F.fin 100) }
    (fun _ _ => F.fin 60)
    [{ x := F.fin 9007199254740992, y := F.fin 0 },
      { x := F.fin 9007199254740992, y := F.fin 60 }]
    (by decide) 0 (by decide)

/-! ### C4 -/

/-- C4: a finished run of `create_dataset` returns the empty trajectory if
and only if the starting point already satisfies the termination policy or
has a degenerate (NaN or infinite) coordinate. -/
theorem C4_empty_iff (fuel : Nat) (start : Point) (step_size : F)
    (end_condition : EndCondition) (deriv : F → F → F) (r : List Point)
    (h : create_dataset fuel start step_size end_condition deriv = some r) :
    r = [] ↔ (end_condition.has_reached start || is_degenerate start.x ||
      is_degenerate start.y) = true := by
  cases fuel with
  | zero => simp [create_dataset] at h
  | succ k =>
    rw [create_dataset_succ] at h
    by_cases hg : (end_condition.has_reached start ||
        is_degenerate start.x || is_degenerate start.y) = true
    · simp only [if_pos hg, Option.some.injEq] at h
      subst h
      simp [hg]
    · rw [if_neg hg] at h
      rw [Option.map_eq_some'] at h
      obtain ⟨rest, _, hr⟩ := h
      subst hr
      simp [hg]

set_option maxRecDepth 10000 in
theorem C4_empty_iff_witness :
    (([] : List Point) = [] ↔
      (EndCondition.has_reached { max_x := some (F.fin 3), max_abs_y := none }
          { x := F.fin 5, y := F.fin 0 } ||
        is_degenerate (Point.mk (F.fin 5) (F.fin 0)).x ||
        is_degenerate (Point.mk (F.fin 5) (F.fin 0)).y) = true) :=
  C4_empty_iff 1 { x := F.fin 5, y := F.fin 0 } (F.fin 1)
    { max_x := some (F.fin 3), max_abs_y := none } (fun _ _ => F.fin 0) []
    (by with_unfolding_all decide)

/-! ### C5 -/

/-- C5: `has_reached p` is true exactly when `max_x` is set and `p.x > max_x`
or `max_abs_y` is set and `|p.y| > max_abs_y` (the x check is evaluated
first; the Lean `if` mirrors the short-circuit evaluation), and when neither
bound is set it is false for every point. -/
theorem C5_has_reached_spec (end_condition : EndCondition) (p : Point) :
    (end_condition.has_reached p = true ↔
      (∃ m, end_condition.max_x = some m ∧ F.gt p.x m = true) ∨
      (∃ m, end_condition.max_abs_y = some m ∧ F.gt (F.abs p.y) m = true)) ∧
    (EndCondition.mk none none).has_reached p = false := by
  obtain ⟨mx, my⟩ := end_condition
  refine ⟨?_, rfl⟩
  cases mx with
  | none =>
    cases my with
    | none => simp [EndCondition.has_reached]
    | some m => simp [EndCondition.has_reached]
  | some m =>
    cases my with
    | none =>
      simp only [EndCondition.has_reached, Option.elim]
      by_cases hx : F.gt p.x m = true <;> simp [hx]
    | some m' =>
      simp only [EndCondition.has_reached, Option.elim]
      by_cases hx : F.gt p.x m = true <;>
        by_cases hy : F.gt (F.abs p.y) m' = true <;> simp [hx, hy]

/-! ### C6 -/

set_option maxRecDepth 10000 in
/-- At `x = 2^53` with step 1, the rounded Euler update is a fixpoint:
`fl(2^53 + 1) = 2^53` and (with derivative 0) y stays 0. -/
theorem stall_point_fixpoint :
    euler_step_fl { x := F.fin 9007199254740992, y := F.fin 0 } (F.fin 1)
      (fun _ _ => F.fin 0) =
      { x := F.fin 9007199254740992, y := F.fin 0 } := by
  decide

set_option maxRecDepth 10000 in
/-- Stalled at `x = 2^53`, the rounded loop never exits: the guard stays
false (x is far below the `10^30` bound, nothing degenerate), the state
never changes, and every fuel runs out. -/
theorem stall_runs_forever (fuel : Nat) :
    create_dataset_fl fuel { x := F.fin 9007199254740992, y := F.fin 0 }
      (F.fin 1)
      { max_x := some (F.fin 1000000000000000000000000000000),
        max_abs_y := none } (fun _ _ => F.fin 0) = none := by
  induction fuel with
  | zero => rfl
  | succ k ih =>
    rw [create_dataset_fl_succ]
    rw [if_neg (by decide)]
    rw [stall_point_fixpoint, ih]
    rfl

/-- C6 (amended): the spec's termination guarantee does not hold — a
termination policy supplying an effective bound does not ensure the
stepping loop halts.  Beside the max_abs_y-only failure (see the
counterexample), even a finite `max_x` bound can never be reached: under
`f64` rounding `x += step` stalls once the step drops below half an ulp of
x, here at `x = 2^53` with step 1 and `max_x = 10^30`, and the loop runs
forever without any coordinate becoming NaN or infinite. -/
theorem C6_amended_no_guaranteed_termination :
    ¬ ∃ (fuel : Nat) (r : List Point),
      create_dataset_fl fuel
        { x := F.fin 9007199254740992, y := F.fin 0 } (F.fin 1)
        { max_x := some (F.fin 1000000000000000000000000000000),
          max_abs_y := none } (fun _ _ => F.fin 0) = some r := by
  rintro ⟨fuel, r, hr⟩
  rw [stall_runs_forever fuel] at hr
  exact Option.noConfusion hr

/-- With no x bound, a y bound of 100, derivative 0 and step 1, the loop
never exits: from any finite x with y = 0 the guard stays false forever, so
every fuel runs out. -/
theorem no_bound_trigger_runs_forever (fuel : Nat) :
    ∀ q : ℚ, create_dataset fuel { x := F.fin q, y := F.fin 0 } (F.fin 1)
      { max_x := none, max_abs_y := some (F.fin 100) } (fun _ _ => F.fin 0) =
      none := by
  induction fuel with
  | zero => intro q; rfl
  | succ k ih =>
    intro q
    rw [create_dataset_succ]
    have hg : (EndCondition.has_reached
        { max_x := none, max_abs_y := some (F.fin 100) }
        { x := F.fin q, y := F.fin 0 } ||
        is_degenerate (Point.mk (F.fin q) (F.fin 0)).x ||
        is_degenerate (Point.mk (F.fin q) (F.fin 0)).y) = false := by
      norm_num [EndCondition.has_reached, Option.elim, F.abs, F.gt,
        is_degenerate]
    rw [if_neg (by simp [hg])]
    have hstep : euler_step { x := F.fin q, y := F.fin 0 } (F.fin 1)
        (fun _ _ => F.fin 0) = { x := F.fin (q + 1), y := F.fin 0 } := by
      simp [euler_step, F.add, F.mul]
    rw [hstep, ih (q + 1)]
    rfl

/-- C6 is false as stated: the termination policy
`max_x = none, max_abs_y = Some(100)` supplies an effective bound, yet with
derivative 0, step 1 and start (0,0) the stepping loop never terminates —
y stays 0 below the bound while x grows without ever becoming degenerate. -/
theorem C6_counterexample_y_bound_only :
    ¬ ∃ (fuel : Nat) (r : List Point),
      create_dataset fuel { x := F.fin 0, y := F.fin 0 } (F.fin 1)
        { max_x := none, max_abs_y := some (F.fin 100) }
        (fun _ _ => F.fin 0) = some r := by
  rintro ⟨fuel, r, hr⟩
  rw [no_bound_trigger_runs_forever fuel 0] at hr
  exact Option.noConfusion hr

/-! ### C7 -/

/-- C7: the batch result at index `i` (for `i < N`) is exactly the
trajectory the integrator produces alone from the start point
`(base_x, 0 + i * Δy)` with the shared step, policy and derivative — the
embedding reflects that the indexed parallel `collect` slots results by
input index, never by completion order — and the first point of trajectory
`i` (when one exists) has y-coordinate `i * Δy`. -/
theorem C7_batch_index (fuel N i : Nat) (start_x step : F) (d : ℚ)
    (end_condition : EndCondition) (deriv : F → F → F) (p : Point)
    (rest : List Point) (hi : i < N)
    (hp : create_dataset fuel
      { x := start_x, y := F.add (F.fin 0) (F.mul (F.fin i) (F.fin d)) }
      step end_condition deriv = some (p :: rest)) :
    (batch_datasets fuel N start_x (F.fin d) step end_condition deriv)[i]? =
      some (create_dataset fuel
        { x := start_x, y := F.add (F.fin 0) (F.mul (F.fin i) (F.fin d)) }
        step end_condition deriv) ∧
    p.y = F.fin (i * d) := by
  constructor
  · rw [batch_datasets, List.getElem?_map, List.getElem?_range hi]
    rfl
  · have hhead := create_dataset_head hp
    subst hhead
    simp [F.add, F.mul]

set_option maxRecDepth 10000 in
theorem C7_batch_index_witness :
    (batch_datasets 5 3 (F.fin 0) (F.fin ((10 : ℚ))) (F.fin 1)
        { max_x := some (F.fin 3), max_abs_y := none }
        (fun _ _ => F.fin 0))[1]? =
      some (create_dataset 5
        { x := F.fin 0,
          y := F.add (F.fin 0) (F.mul (F.fin ((1 : ℕ) : ℚ)) (F.fin 10)) }
        (F.fin 1) { max_x := some (F.fin 3), max_abs_y := none }
        (fun _ _ => F.fin 0)) ∧
    (Point.mk (F.fin 0) (F.fin 10)).y = F.fin (((1 : ℕ) : ℚ) * 10) :=
  C7_batch_index 5 3 1 (F.fin 0) (F.fin 1) 10
    { max_x := some (F.fin 3), max_abs_y := none } (fun _ _ => F.fin 0)
    (Point.mk (F.fin 0) (F.fin 10))
    [{ x := F.fin 1, y := F.fin 10 }, { x := F.fin 2, y := F.fin 10 },
      { x := F.fin 3, y := F.fin 10 }]
    (by norm_num) (by with_unfolding_all decide)

/-! ### C8 -/

/-- C8: when the aggregate of all trajectories contains zero points, the
first `reduce(..).unwrap()` in `main` has nothing to reduce and the run
aborts with an error (the `unwrap` panic, modelled as `Except.error`,
causes a non-zero exit) before any viewport is computed; since the chart
backend is only created after the bounds, no image is written and nothing
is silently defaulted. -/
theorem C8_empty_aggregate_aborts (start_x : F)
    (datasets : List (List Point)) (h : datasets.flatten = []) :
    run_main start_x datasets =
      Except.error "called Option::unwrap on a None value" := by
  unfold run_main
  rw [h]
  rfl

theorem C8_empty_aggregate_aborts_witness :
    run_main (F.fin 0) [[], []] =
      Except.error "called Option::unwrap on a None value" :=
  C8_empty_aggregate_aborts (F.fin 0) [[], []] rfl

/-! ### C10 -/

theorem gt_nan_right (a : F) : F.gt a F.nan = false := by
  cases a <;> rfl

/-- C10: a configured bound that is itself NaN can never trigger
`has_reached`: with `max_x = Some(NaN)` (resp. `max_abs_y = Some(NaN)`)
the predicate agrees on every point with the policy where that bound is
`None`, because the `>` comparison with NaN is always false; with both
bounds NaN it is constantly false.  A NaN bound is silently inert rather
than rejected. -/
theorem C10_nan_bound_inert (p : Point) (mx my : Option F) :
    (EndCondition.mk (some F.nan) my).has_reached p =
        (EndCondition.mk none my).has_reached p ∧
      (EndCondition.mk mx (some F.nan)).has_reached p =
        (EndCondition.mk mx none).has_reached p ∧
      (EndCondition.mk (some F.nan) (some F.nan)).has_reached p = false := by
  cases mx <;> cases my <;>
    simp [EndCondition.has_reached, Option.elim, gt_nan_right]

/-! ### C9 -/

/-- With a nonnegative finite step, every emitted x-coordinate is a finite
value no smaller than any lower bound on the start's x-coordinate. -/
theorem create_dataset_x_lower_bound (s a : ℚ) (hs : 0 ≤ s)
    (end_condition : EndCondition) (deriv : F → F → F) :
    ∀ (fuel : Nat) (start : Point) (r : List Point) (b : ℚ),
      start.x = F.fin b → a ≤ b →
      create_dataset fuel start (F.fin s) end_condition deriv = some r →
      ∀ p ∈ r, ∃ q, p.x = F.fin q ∧ a ≤ q := by
  intro fuel
  induction fuel with
  | zero => intro start r b _ _ h; simp [create_dataset] at h
  | succ k ih =>
    intro start r b hb hab h
    rw [create_dataset_succ] at h
    by_cases hg : (end_condition.has_reached start ||
        is_degenerate start.x || is_degenerate start.y) = true
    · simp only [if_pos hg, Option.some.injEq] at h
      subst h
      intro p hp
      exact absurd hp (List.not_mem_nil p)
    · rw [if_neg hg] at h
      rw [Option.map_eq_some'] at h
      obtain ⟨rest, hrest, hr⟩ := h
      subst hr
      intro p hp
      rcases List.mem_cons.mp hp with rfl | hpr
      · exact ⟨b, hb, hab⟩
      · refine ih (euler_step start (F.fin s) deriv) rest (b + s) ?_
          (by linarith) hrest p hpr
        simp [euler_step, hb, F.add]

/-- Folding `f64::min` over finite values that are all at least `a`, with
`a` itself present, yields exactly `a`. -/
theorem foldl_minF_eq (a : ℚ) :
    ∀ (l : List F) (c : F), (∀ f ∈ l, ∃ q, f = F.fin q ∧ a ≤ q) →
      (∃ qc, c = F.fin qc ∧ a ≤ qc) → (c = F.fin a ∨ F.fin a ∈ l) →
      l.foldl F.minF c = F.fin a := by
  intro l
  induction l with
  | nil =>
    intro c _ _ hc
    rcases hc with hc | hc
    · simpa using hc
    · exact absurd hc (List.not_mem_nil _)
  | cons hd t ih =>
    intro c hmem hcfin hc
    obtain ⟨qh, hh, hqh⟩ := hmem hd (List.mem_cons_self hd t)
    obtain ⟨qc, hqc, haqc⟩ := hcfin
    rw [List.foldl_cons]
    have hmin : F.minF c hd = F.fin (min qc qh) := by
      rw [hqc, hh]; rfl
    refine ih (F.minF c hd)
      (fun f hf => hmem f (List.mem_cons_of_mem _ hf))
      ⟨min qc qh, hmin, le_min haqc hqh⟩ ?_
    rcases hc with hc | hc
    · left
      obtain rfl : qc = a := by
        rw [hqc] at hc
        injection hc
      rw [hmin, min_eq_left hqh]
    · rcases List.mem_cons.mp hc with hcd | hct
      · left
        obtain rfl : qh = a := by
          rw [← hcd] at hh
          injection hh with h'
          exact h'.symm
        rw [hmin, min_eq_right haqc]
      · right
        exact hct

/-- `reduce(f64::min)` over a list of finite values all at least `a`, with
`a` present, returns exactly `a`. -/
theorem reduce_minF_mem (a : ℚ) (l : List F)
    (hmem : ∀ f ∈ l, ∃ q, f = F.fin q ∧ a ≤ q) (hin : F.fin a ∈ l) :
    reduce F.minF l = some (F.fin a) := by
  cases l with
  | nil => exact absurd hin (List.not_mem_nil _)
  | cons hd t =>
    have hred : reduce F.minF (hd :: t) =
        some (List.foldl F.minF hd t) := rfl
    rw [hred]
    congr 1
    obtain ⟨qh, hh, hqh⟩ := hmem hd (List.mem_cons_self hd t)
    refine foldl_minF_eq a t hd
      (fun f hf => hmem f (List.mem_cons_of_mem _ hf)) ⟨qh, hh, hqh⟩ ?_
    rcases List.mem_cons.mp hin with hcd | hct
    · left; exact hcd.symm
    · right; exact hct

/-- Every trajectory slot of `main`'s batch is a `create_dataset` run from
`(0, 0 + i * 10)` with step `0.001` and the `±150` bounds. -/
theorem main_datasets_mem (fuel : Nat) (deriv : F → F → F)
    (ds : List (List Point)) (hds : main_datasets fuel deriv = ds.map some) :
    ∀ l ∈ ds, ∃ i : Nat, create_dataset fuel
      { x := F.fin 0, y := F.add (F.fin 0) (F.mul (F.fin ((i : ℚ))) (F.fin 10)) }
      (F.fin (1 / 1000))
      { max_x := some (F.fin 150), max_abs_y := some (F.fin 150) } deriv =
      some l := by
  intro l hl
  have hmem : some l ∈ ds.map some := List.mem_map_of_mem some hl
  rw [← hds, main_datasets, batch_datasets] at hmem
  obtain ⟨i, _, hil⟩ := List.mem_map.mp hmem
  exact ⟨i, hil⟩

/-- Every point in the aggregate of `main`'s batch has a finite,
nonnegative x-coordinate. -/
theorem main_datasets_points_x (fuel : Nat) (deriv : F → F → F)
    (ds : List (List Point)) (hds : main_datasets fuel deriv = ds.map some) :
    ∀ p ∈ ds.flatten, ∃ q, p.x = F.fin q ∧ 0 ≤ q := by
  intro p hp
  obtain ⟨l, hl, hpl⟩ := List.mem_flatten.mp hp
  obtain ⟨i, hil⟩ := main_datasets_mem fuel deriv ds hds l hl
  exact create_dataset_x_lower_bound (1 / 1000) 0 (by norm_num) _ deriv fuel
    _ l 0 rfl le_rfl hil p hpl

/-- When the aggregate of `main`'s batch is nonempty, the x-value 0 (the
shared `start_x`) occurs among the aggregated x-coordinates. -/
theorem main_datasets_zero_mem (fuel : Nat) (deriv : F → F → F)
    (ds : List (List Point)) (hds : main_datasets fuel deriv = ds.map some)
    (hne : ds.flatten ≠ []) :
    F.fin 0 ∈ (ds.flatten).map Point.x := by
  obtain ⟨p, hp⟩ := List.exists_mem_of_ne_nil _ hne
  obtain ⟨l, hl, hpl⟩ := List.mem_flatten.mp hp
  obtain ⟨i, hil⟩ := main_datasets_mem fuel deriv ds hds l hl
  cases l with
  | nil => exact absurd hpl (List.not_mem_nil p)
  | cons p0 t =>
    have hhead := create_dataset_head hil
    have hx : p0.x = F.fin 0 := by rw [hhead]
    exact List.mem_map.mpr ⟨p0,
      List.mem_flatten.mpr ⟨p0 :: t, hl, List.mem_cons_self _ _⟩, hx⟩

/-- C9: whenever `main`'s batch (any derivative, any sufficient fuel)
produces at least one point, the viewport handed to the renderer is exactly
the minimum x, maximum x, minimum y and maximum y over the union of all
points of all trajectories, each padded outward by exactly 1.0: the code's
left bound `start_x - 1.0` coincides with `min_x - 1.0` because every
trajectory starts at `start_x` and x only grows. -/
theorem C9_viewport_bounds (fuel : Nat) (deriv : F → F → F)
    (ds : List (List Point)) (mnx mxx mny mxy : F)
    (hds : main_datasets fuel deriv = ds.map some)
    (h1 : reduce F.minF ((ds.flatten).map Point.x) = some mnx)
    (h2 : reduce F.maxF ((ds.flatten).map Point.x) = some mxx)
    (h3 : reduce F.minF ((ds.flatten).map Point.y) = some mny)
    (h4 : reduce F.maxF ((ds.flatten).map Point.y) = some mxy) :
    run_main (F.fin 0) ds =
      Except.ok (F.sub mnx (F.fin 1), F.add mxx (F.fin 1),
        F.sub mny (F.fin 1), F.add mxy (F.fin 1)) := by
  have hne : ds.flatten ≠ [] := by
    intro hnil
    rw [hnil] at h1
    simp [reduce] at h1
  have hmnx : mnx = F.fin 0 := by
    have hmem : ∀ f ∈ (ds.flatten).map Point.x, ∃ q, f = F.fin q ∧ 0 ≤ q := by
      intro f hf
      obtain ⟨p, hp, hpf⟩ := List.mem_map.mp hf
      obtain ⟨q, hq, hq0⟩ := main_datasets_points_x fuel deriv ds hds p hp
      exact ⟨q, hpf ▸ hq, hq0⟩
    have hmin := reduce_minF_mem 0 _ hmem
      (main_datasets_zero_mem fuel deriv ds hds hne)
    rw [h1] at hmin
    exact (Option.some.injEq _ _).mp hmin
  subst hmnx
  unfold run_main
  rw [h2, h3, h4]
  rfl

set_option maxRecDepth 40000 in
theorem C9_viewport_bounds_witness :
    run_main (F.fin 0)
        [[{ x := F.fin 0, y := F.fin 0 }], [{ x := F.fin 0, y := F.fin 10 }],
          [{ x := F.fin 0, y := F.fin 20 }], [{ x := F.fin 0, y := F.fin 30 }],
          [{ x := F.fin 0, y := F.fin 40 }], [{ x := F.fin 0, y := F.fin 50 }],
          [{ x := F.fin 0, y := F.fin 60 }], [{ x := F.fin 0, y := F.fin 70 }],
          [{ x := F.fin 0, y := F.fin 80 }],
          [{ x := F.fin 0, y := F.fin 90 }]] =
      Except.ok (F.sub (F.fin 0) (F.fin 1), F.add (F.fin 0) (F.fin 1),
        F.sub (F.fin 0) (F.fin 1), F.add (F.fin 90) (F.fin 1)) :=
  C9_viewport_bounds 2 (fun _ _ => F.fin 1000000)
    [[{ x := F.fin 0, y := F.fin 0 }], [{ x := F.fin 0, y := F.fin 10 }],
      [{ x := F.fin 0, y := F.fin 20 }], [{ x := F.fin 0, y := F.fin 30 }],
      [{ x := F.fin 0, y := F.fin 40 }], [{ x := F.fin 0, y := F.fin 50 }],
      [{ x := F.fin 0, y := F.fin 60 }], [{ x := F.fin 0, y := F.fin 70 }],
      [{ x := F.fin 0, y := F.fin 80 }], [{ x := F.fin 0, y := F.fin 90 }]]
    (F.fin 0) (F.fin 0) (F.fin 0) (F.fin 90)
    (by with_unfolding_all decide) (by with_unfolding_all decide)
    (by with_unfolding_all decide) (by with_unfolding_all decide)
    (by with_unfolding_all decide)
